import Mathlib

/-!
Verification of the extension-host process bridge of this repository
(`src/vs/workbench/node/pluginHostProcess.ts`): plugin discovery merge,
eager activation, the optional test-runner stage, the renderer handshake
and the parent-liveness supervisor.  TypeScript promise chains are
embedded as pure Lean functions producing explicit event traces; the
file system, the remote activation service and node `require` are
parameters of the model.
-/

namespace PluginHost

/-- Severity of a collected diagnostic message (`vs/base/common/severity`). -/
inductive Sev where
  | error
  | warning
  | information
deriving DecidableEq, Repr

/-- A collected diagnostic, as produced by `PluginsMessageCollector`:
a severity, a source string (the collector's first argument, `''` at
every call site in `pluginHostMain`) and the message text. -/
structure IMessage where
  severity : Sev
  source : String
  message : String
deriving DecidableEq, Repr

/-- The fields of `IPluginDescription` that the host lifecycle reads:
the id, the install location (`extensionFolderPath`) and the optional
declared activation events. -/
structure IPluginDescription where
  id : String
  extensionFolderPath : String
  activationEvents : Option (List String) := none
deriving DecidableEq, Repr, Inhabited

/-- Insertion into a JavaScript string-keyed object map, modelled as an
association list in key-insertion order: `m[p.id] = p` replaces the value
at an existing key in place and otherwise appends a new entry. -/
def mapSet : List IPluginDescription → IPluginDescription → List IPluginDescription
  | [], p => [p]
  | q :: t, p => if q.id = p.id then p :: t else q :: mapSet t p

/-- Lookup in the object map: the entry stored under id `i`, if any. -/
def findId (m : List IPluginDescription) (i : String) : Option IPluginDescription :=
  m.find? (fun p => p.id = i)

/-- The ids of a descriptor list, in order. -/
def ids (l : List IPluginDescription) : List String :=
  l.map IPluginDescription.id

/-- The descriptor list mentions no id twice. -/
def idsNodup (l : List IPluginDescription) : Prop :=
  (ids l).Nodup

/-- Number of descriptors carrying id `i` in a list. -/
def countId (l : List IPluginDescription) (i : String) : Nat :=
  (l.filter (fun p => p.id = i)).length

/-- The warning emitted by `scanPlugins` when a later source overwrites
an earlier descriptor with the same id; it names both install locations. -/
def overwriteWarning (old p : IPluginDescription) : IMessage :=
  ⟨Sev.warning, "",
    "Overwriting extension " ++ old.extensionFolderPath ++ " with " ++ p.extensionFolderPath⟩

/-- The informational diagnostic emitted for every development-mode
descriptor load. -/
def devLoadInfo (p : IPluginDescription) : IMessage :=
  ⟨Sev.information, "", "Loading development extension at " ++ p.extensionFolderPath⟩

/-- One step of the builtin `forEach`: store the descriptor, no diagnostics. -/
def mergeBuiltinStep (st : List IPluginDescription × List IMessage) (p : IPluginDescription) :
    List IPluginDescription × List IMessage :=
  (mapSet st.1 p, st.2)

/-- One step of the user-installed `forEach`: warn if the id is already
present, then store the descriptor. -/
def mergeUserStep (st : List IPluginDescription × List IMessage) (p : IPluginDescription) :
    List IPluginDescription × List IMessage :=
  match findId st.1 p.id with
  | some q => (mapSet st.1 p, st.2 ++ [overwriteWarning q p])
  | none => (mapSet st.1 p, st.2)

/-- One step of the development-mode `forEach`: always emit the load
diagnostic, warn if the id is already present, then store the descriptor. -/
def mergeDevStep (st : List IPluginDescription × List IMessage) (p : IPluginDescription) :
    List IPluginDescription × List IMessage :=
  let st' := (st.1, st.2 ++ [devLoadInfo p])
  match findId st'.1 p.id with
  | some q => (mapSet st'.1 p, st'.2 ++ [overwriteWarning q p])
  | none => (mapSet st'.1 p, st'.2)

/-- `PluginHostMain.scanPlugins`, merge phase: given the descriptor lists
produced by scanning the builtin, user-installed and development sources,
build the id-keyed map (builtin first, then user, then development, later
entries overwriting same-id earlier ones) together with the diagnostics
collected along the way.  The returned descriptor collection is the map's
values in key order. -/
def scanPlugins (builtinPlugins userPlugins developedPlugins : List IPluginDescription) :
    List IPluginDescription × List IMessage :=
  let st0 := builtinPlugins.foldl mergeBuiltinStep ([], [])
  let st1 := userPlugins.foldl mergeUserStep st0
  developedPlugins.foldl mergeDevStep st1

/-- The map after the builtin phase alone. -/
def builtinMap (b : List IPluginDescription) : List IPluginDescription :=
  b.foldl mapSet []

/-- The map after the builtin and user phases. -/
def builtinUserMap (b u : List IPluginDescription) : List IPluginDescription :=
  u.foldl mapSet (builtinMap b)

/-- Id `i` occurs in at least two of the three scanned sources. -/
def inMultipleSources (b u d : List IPluginDescription) (i : String) : Prop :=
  (i ∈ ids b ∧ i ∈ ids u) ∨ (i ∈ ids b ∧ i ∈ ids d) ∨ (i ∈ ids u ∧ i ∈ ids d)

/-- The spec's precedence rule, written from its words: the merged entry
for an id is the development descriptor if that source has one, else the
user-installed one, else the builtin one (development > user > builtin).
Used only to compare the code's merge result against the spec. -/
def precedenceChoice (b u d : List IPluginDescription) (i : String) :
    Option IPluginDescription :=
  match findId d i with
  | some p => some p
  | none =>
    match findId u i with
    | some p => some p
    | none => findId b i

/-- A workspace root resource: only its file-system path is read. -/
structure WorkspaceResource where
  fsPath : String
deriving DecidableEq, Repr

/-- The workspace as read by `handleWorkspaceContainsEagerPlugins`:
possibly without a root resource. -/
structure IWorkspace where
  resource : Option WorkspaceResource
deriving DecidableEq, Repr

/-- Modelled from the spec: `paths.join` (in `vs/base/common/paths`,
outside `src/`) joins a folder path and a relative file name.  Its exact
normalisation is irrelevant here because the file system is an arbitrary
function parameter of the model. -/
def pathJoin (folder name : String) : String :=
  folder ++ "/" ++ name

/-- The characters of the `workspaceContains:` event tag. -/
def workspaceContainsTag : List Char :=
  "workspaceContains:".data

/-- The filename extracted from an activation event when the event
matches `/^workspaceContains:/` (the event starts with the tag): the
remainder of the event after the tag
(`activationEvents[i].substr('workspaceContains:'.length)`), computed on
the character list so that it evaluates on concrete events. -/
def workspaceContainsFileOf (ev : String) : Option String :=
  if workspaceContainsTag.isPrefixOf ev.data then
    some (String.mk (ev.data.drop workspaceContainsTag.length))
  else
    none

/-- Key insertion into the `desiredFilesMap` JavaScript object: a set of
filenames kept as a duplicate-free list in first-insertion order. -/
def addDesiredFile (acc : List String) (f : String) : List String :=
  if f ∈ acc then acc else acc ++ [f]

/-- One activation event's contribution to `desiredFilesMap`. -/
def desiredFileStep (acc : List String) (ev : String) : List String :=
  match workspaceContainsFileOf ev with
  | some f => addDesiredFile acc f
  | none => acc

/-- One descriptor's contribution to `desiredFilesMap`: descriptors
without declared activation events are skipped. -/
def desiredFilesOfDesc (acc : List String) (desc : IPluginDescription) : List String :=
  match desc.activationEvents with
  | none => acc
  | some evs => evs.foldl desiredFileStep acc

/-- The distinct filenames named by `workspaceContains:` activation
events of the registered descriptors (the keys of `desiredFilesMap`). -/
def desiredFiles (descs : List IPluginDescription) : List String :=
  descs.foldl desiredFilesOfDesc []

/-- Some registered descriptor declares a `workspaceContains:` activation
event naming file `f`. -/
def declaresWorkspaceFile (descs : List IPluginDescription) (f : String) : Prop :=
  ∃ desc ∈ descs, ∃ evs, desc.activationEvents = some evs ∧
    ∃ ev ∈ evs, workspaceContainsFileOf ev = some f

/-- Modelled from the spec: `pfs.fileExistsWithResult(path, result)`
(in `vs/base/node/pfs`, outside `src/`) resolves with `result` when a
file exists at `path` and with a null-ish value otherwise; the file
system itself is the `fileExists` parameter of the model. -/
def fileExistsWithResult (fileExists : String → Bool) (path res : String) : Option String :=
  if fileExists path then some res else none

/-- JavaScript truthiness of an optional string: `null`/`undefined` and
the empty string are falsy. -/
def jsTruthyOptString : Option String → Bool
  | none => false
  | some s => !(s == "")

/-- Observable outcome of `handlePluginTests`:
whether `testRunner.run` was invoked and with which path, the delay (ms)
of the scheduled `process.exit` if one was scheduled, and the error the
stage reported (the runner callback's error, the `require` error, or the
invalid-runner message). -/
structure TestStageResult where
  runnerInvoked : Bool
  runnerPath : Option String
  exitDelayMs : Option Nat
  errorReported : Option String
deriving DecidableEq, Repr

/-- The loaded test-runner module: it conforms to the `ITestRunner`
contract when it exports a `run` function.  A conforming runner is
modelled as the error value (if any) it passes to its callback when run
on a given path. -/
structure ITestRunnerModule where
  run : Option (String → Option String)

/-- The environment fields of Init Data that `handlePluginTests` and
`scanPlugins` read for test configuration; an absent field is `none`
(JavaScript also treats an empty string as absent). -/
structure IEnvironment where
  pluginTestsPath : Option String
  pluginDevelopmentPath : Option String
deriving DecidableEq, Repr

/-- The error reported when the module at `pluginTestsPath` does not
export a `run` function (`nls.localize('pluginTestError', ...)` with the
path substituted). -/
def testRunnerInvalidMessage (testsPath : String) : String :=
  "Path " ++ testsPath ++ " does not point to a valid extension test runner."

/-- `PluginHostMain.handlePluginTests`: skip when either test path is
missing; otherwise `require` the runner (the `requireModule` parameter
models node `require` of `env.pluginTestsPath`), invoke `run` when
exported (scheduling exit 800ms after the callback), and otherwise
schedule an immediate exit and report a descriptive error. -/
def handlePluginTests (env : IEnvironment)
    (requireModule : Except String ITestRunnerModule) : TestStageResult :=
  if !(jsTruthyOptString env.pluginTestsPath) || !(jsTruthyOptString env.pluginDevelopmentPath) then
    ⟨false, none, none, none⟩
  else
    let testsPath := env.pluginTestsPath.getD ""
    match requireModule with
    | Except.ok m =>
      match m.run with
      | some runFn => ⟨true, some testsPath, some 800, runFn testsPath⟩
      | none => ⟨false, none, some 0, some (testRunnerInvalidMessage testsPath)⟩
    | Except.error e => ⟨false, none, some 0, some e⟩

/-- Observable events of the lifecycle driver, in program order:
registry publication, the registration-done signal with the collected
diagnostics, activation requests and their logged failures, file
existence checks, and the test-stage outcome. -/
inductive LifeEvent where
  | registered (ds : List IPluginDescription)
  | registrationDone (msgs : List IMessage)
  | activationRequest (ev : String)
  | activationErrorLogged (ev : String) (err : String)
  | fileCheck (path : String) (fileName : String)
  | testOutcome (r : TestStageResult)
deriving DecidableEq, Repr

/-- `pluginService.activateByEvent(ev).then(null, err => console.error(err))`:
the request is issued, and if the remote activation fails (the
`actError` parameter models the remote service) the failure is logged
and swallowed. -/
def activationAttempt (actError : String → Option String) (ev : String) : List LifeEvent :=
  match actError ev with
  | none => [LifeEvent.activationRequest ev]
  | some e => [LifeEvent.activationRequest ev, LifeEvent.activationErrorLogged ev e]

/-- The `fileNames.forEach` body: a null-ish or empty existence result
(`if (!existingFileName) return;`) is skipped, otherwise the
`workspaceContains:` activation event is requested. -/
def wsActivationOnResult (actError : String → Option String) (acc : List LifeEvent) :
    Option String → List LifeEvent
  | none => acc
  | some f =>
    if f = "" then acc
    else acc ++ activationAttempt actError ("workspaceContains:" ++ f)

/-- `PluginHostMain.handleWorkspaceContainsEagerPlugins`: no-op without a
workspace root; otherwise one existence check per distinct declared
filename, then an activation request per truthy existence result. -/
def handleWorkspaceContainsEagerPlugins (descs : List IPluginDescription)
    (workspace : Option IWorkspace) (fileExists : String → Bool)
    (actError : String → Option String) : List LifeEvent :=
  match workspace with
  | none => []
  | some w =>
    match w.resource with
    | none => []
    | some r =>
      let folderPath := r.fsPath
      let files := desiredFiles descs
      let checks := files.map (fun f => LifeEvent.fileCheck (pathJoin folderPath f) f)
      let results := files.map (fun f => fileExistsWithResult fileExists (pathJoin folderPath f) f)
      checks ++ results.foldl (wsActivationOnResult actError) []

/-- `PluginHostMain.handleEagerPlugins`: the wildcard activation request
(failure logged, not awaited), then the `workspaceContains` stage. -/
def handleEagerPlugins (descs : List IPluginDescription) (workspace : Option IWorkspace)
    (fileExists : String → Bool) (actError : String → Option String) : List LifeEvent :=
  activationAttempt actError "*"
    ++ handleWorkspaceContainsEagerPlugins descs workspace fileExists actError

/-- The descriptor set and collected messages after the scan settles:
on total scan failure (`then(null, err => ...)`) the error is recorded on
the collector (after any messages already collected) and the descriptor
set is empty. -/
def scanResultOf :
    Except (List IMessage × String) (List IPluginDescription × List IMessage) →
      List IPluginDescription × List IMessage
  | Except.ok r => r
  | Except.error pe => ([], pe.1 ++ [⟨Sev.error, "", pe.2⟩])

/-- `PluginHostMain.readPlugins` (= `start`): the promise chain
scan → register & registrationDone → handleEagerPlugins →
handlePluginTests, as an event trace.  `scanOutcome` models the settled
scan promise together with the message collector. -/
def readPlugins
    (scanOutcome : Except (List IMessage × String) (List IPluginDescription × List IMessage))
    (workspace : Option IWorkspace) (fileExists : String → Bool)
    (actError : String → Option String) (env : IEnvironment)
    (requireModule : Except String ITestRunnerModule) : List LifeEvent :=
  let st := scanResultOf scanOutcome
  LifeEvent.registered st.1 :: LifeEvent.registrationDone st.2 ::
    (handleEagerPlugins st.1 workspace fileExists actError
      ++ [LifeEvent.testOutcome (handlePluginTests env requireModule)])

/-- The activation event carried by an activation-request trace event. -/
def requestEvent : LifeEvent → Option String
  | LifeEvent.activationRequest ev => some ev
  | _ => none

/-- The activation events requested in a trace, in order. -/
def requestsOf (l : List LifeEvent) : List String :=
  l.filterMap requestEvent

/-- The activation event string, if any, that a truthy existence result
leads the `forEach` body to request. -/
def requestOfResult : Option String → Option String
  | none => none
  | some f => if f = "" then none else some ("workspaceContains:" ++ f)

/-- Trace events that belong to the eager-activation stage. -/
def isEagerEvent : LifeEvent → Bool
  | LifeEvent.activationRequest _ => true
  | LifeEvent.activationErrorLogged _ _ => true
  | LifeEvent.fileCheck _ _ => true
  | _ => false

/-- Whether a trace event is the existence check for filename `f`. -/
def isFileCheckFor (f : String) : LifeEvent → Bool
  | LifeEvent.fileCheck _ fn => fn == f
  | _ => false

/-- Observable events of `connectToRenderer` over the parent channel:
signals sent, the Init Data message consumed, the wiring of further
messages into the remote registry dispatch, and dispatched messages. -/
inductive HandshakeEvent (M : Type) where
  | sent (signal : String)
  | consumedInitData (msg : M)
  | wiredToDispatch
  | dispatched (msg : M)
deriving DecidableEq, Repr

/-- `connectToRenderer` as a trace over the inbound parent-channel
messages: `process.send('ready')` happens as soon as the one-shot
listener is installed; the first inbound message is consumed as Init
Data, all later messages are wired to `remoteCom.handle`, and
`process.send('initialized')` follows the wiring; subsequent messages
are then dispatched in order. -/
def connectToRenderer {M : Type} (inbound : List M) : List (HandshakeEvent M) :=
  HandshakeEvent.sent "ready" ::
    (match inbound with
     | [] => []
     | msg :: rest =>
        HandshakeEvent.consumedInitData msg ::
        HandshakeEvent.wiredToDispatch ::
        HandshakeEvent.sent "initialized" ::
        rest.map HandshakeEvent.dispatched)

/-- Whether a handshake event consumes Init Data. -/
def isConsumedInit {M : Type} : HandshakeEvent M → Bool
  | HandshakeEvent.consumedInitData _ => true
  | _ => false

/-- The message carried by a dispatched handshake event. -/
def dispatchedMsg {M : Type} : HandshakeEvent M → Option M
  | HandshakeEvent.dispatched m => some m
  | _ => none

/-- Events observed by the supervised host process after the handshake:
the 5-second liveness probe of the parent process id (carrying whether
the parent was still alive), uncaught synchronous exceptions, and
unhandled promise rejections. -/
inductive SupervisedEvent where
  | probeTick (parentAlive : Bool)
  | uncaughtException (err : String)
  | unhandledRejection (reason : String)
deriving DecidableEq, Repr

/-- Actions the supervised process takes in response. -/
inductive SupervisedAction where
  | reportedError (err : String)
  | exitedProcess
deriving DecidableEq, Repr

/-- The interval of the parent-liveness `setInterval`, in milliseconds. -/
def livenessPollIntervalMs : Nat := 5000

/-- The signal number of the `process.kill(msg.parentPid, 0)` probe:
signal `0` performs no side effect on the target. -/
def parentProbeSignal : Nat := 0

/-- The report emitted for an error event (`onUnexpectedError`), if any. -/
def reportOf : SupervisedEvent → Option SupervisedAction
  | SupervisedEvent.probeTick _ => none
  | SupervisedEvent.uncaughtException e => some (SupervisedAction.reportedError e)
  | SupervisedEvent.unhandledRejection r => some (SupervisedAction.reportedError r)

/-- The supervisor installed by `connectToRenderer`: a failing liveness
probe calls `process.exit()` immediately and nothing later runs; the
`uncaughtException` and `unhandledRejection` handlers report the error
and continue. -/
def superviseRun : List SupervisedEvent → List SupervisedAction
  | [] => []
  | SupervisedEvent.probeTick true :: rest => superviseRun rest
  | SupervisedEvent.probeTick false :: _ => [SupervisedAction.exitedProcess]
  | SupervisedEvent.uncaughtException e :: rest =>
      SupervisedAction.reportedError e :: superviseRun rest
  | SupervisedEvent.unhandledRejection r :: rest =>
      SupervisedAction.reportedError r :: superviseRun rest

theorem findId_nil (i : String) : findId [] i = none := rfl

theorem findId_cons (p : IPluginDescription) (t : List IPluginDescription) (i : String) :
    findId (p :: t) i = if p.id = i then some p else findId t i := by
  by_cases h : p.id = i <;> simp [findId, List.find?, h]

theorem findId_mapSet (m : List IPluginDescription) (p : IPluginDescription) (i : String) :
    findId (mapSet m p) i = if p.id = i then some p else findId m i := by
  induction m with
  | nil => by_cases h : p.id = i <;> simp [mapSet, findId_cons, findId_nil, h]
  | cons q t ih =>
    simp only [mapSet]
    by_cases hq : q.id = p.id
    · rw [if_pos hq, findId_cons, findId_cons]
      by_cases h : p.id = i
      · rw [if_pos h, if_pos h]
      · rw [if_neg h, if_neg h, if_neg (fun c => h (hq.symm.trans c))]
    · rw [if_neg hq, findId_cons, findId_cons, ih]
      by_cases hqi : q.id = i <;> by_cases h : p.id = i
      · exact absurd (hqi.trans h.symm) hq
      · simp [hqi, h]
      · simp [hqi, h]
      · simp [hqi, h]

theorem mem_ids_mapSet (m : List IPluginDescription) (p : IPluginDescription) (i : String) :
    i ∈ ids (mapSet m p) ↔ i = p.id ∨ i ∈ ids m := by
  induction m with
  | nil => simp [mapSet, ids]
  | cons q t ih =>
    simp only [mapSet]
    by_cases hq : q.id = p.id
    · rw [if_pos hq]
      simp only [ids, List.map_cons, List.mem_cons]
      constructor
      · rintro (h | h)
        · exact Or.inl h
        · exact Or.inr (Or.inr h)
      · rintro (h | h | h)
        · exact Or.inl h
        · exact Or.inl (h.trans hq)
        · exact Or.inr h
    · rw [if_neg hq]
      simp only [ids, List.map_cons, List.mem_cons] at ih ⊢
      rw [ih]
      tauto

theorem idsNodup_mapSet (m : List IPluginDescription) (p : IPluginDescription)
    (h : idsNodup m) : idsNodup (mapSet m p) := by
  induction m with
  | nil => simp [mapSet, idsNodup, ids]
  | cons q t ih =>
    simp only [idsNodup, ids, List.map_cons, List.nodup_cons] at h
    obtain ⟨hq1, hq2⟩ := h
    simp only [mapSet]
    by_cases hq : q.id = p.id
    · rw [if_pos hq]
      simp only [idsNodup, ids, List.map_cons, List.nodup_cons]
      exact ⟨hq ▸ hq1, hq2⟩
    · rw [if_neg hq]
      have ht : idsNodup (mapSet t p) := ih hq2
      have hqmem : q.id ∉ ids (mapSet t p) := by
        rw [mem_ids_mapSet]
        rintro (h1 | h1)
        · exact hq h1
        · exact hq1 h1
      simp only [idsNodup, ids, List.map_cons, List.nodup_cons]
      exact ⟨hqmem, ht⟩

theorem findId_eq_none_iff (l : List IPluginDescription) (i : String) :
    findId l i = none ↔ i ∉ ids l := by
  induction l with
  | nil => simp [findId_nil, ids]
  | cons p t ih =>
    rw [findId_cons]
    by_cases h : p.id = i
    · simp [h, ids]
    · simp only [if_neg h, ih, ids, List.map_cons, List.mem_cons]
      constructor
      · rintro hn (h1 | h1)
        · exact h h1.symm
        · exact hn h1
      · exact fun hn h1 => hn (Or.inr h1)

theorem findId_isSome_iff (l : List IPluginDescription) (i : String) :
    (findId l i).isSome ↔ i ∈ ids l := by
  rcases ho : findId l i with _ | q
  · simp [(findId_eq_none_iff l i).mp ho]
  · simp only [Option.isSome_some, true_iff]
    by_contra hmem
    rw [(findId_eq_none_iff l i).mpr hmem] at ho
    exact Option.noConfusion ho

theorem findId_foldl_mapSet (l : List IPluginDescription) (m : List IPluginDescription)
    (i : String) (hl : idsNodup l) :
    findId (l.foldl mapSet m) i = (findId l i <|> findId m i) := by
  induction l generalizing m with
  | nil => simp [findId_nil]
  | cons p t ih =>
    simp only [idsNodup, ids, List.map_cons, List.nodup_cons] at hl
    rw [List.foldl_cons, ih (mapSet m p) hl.2, findId_mapSet, findId_cons]
    by_cases h : p.id = i
    · rw [if_pos h, if_pos h]
      have ht : findId t i = none := by
        rw [findId_eq_none_iff]
        exact fun hmem => hl.1 (h ▸ hmem)
      simp [ht]
    · rw [if_neg h, if_neg h]

theorem mem_ids_foldl_mapSet (l : List IPluginDescription) (m : List IPluginDescription)
    (i : String) : i ∈ ids (l.foldl mapSet m) ↔ i ∈ ids l ∨ i ∈ ids m := by
  induction l generalizing m with
  | nil => simp [ids]
  | cons p t ih =>
    rw [List.foldl_cons, ih (mapSet m p), mem_ids_mapSet]
    simp only [ids, List.map_cons, List.mem_cons]
    tauto

theorem idsNodup_foldl_mapSet (l : List IPluginDescription) (m : List IPluginDescription)
    (h : idsNodup m) : idsNodup (l.foldl mapSet m) := by
  induction l generalizing m with
  | nil => exact h
  | cons p t ih => exact ih (mapSet m p) (idsNodup_mapSet m p h)

theorem countId_eq_zero_of_not_mem (l : List IPluginDescription) (i : String)
    (h : i ∉ ids l) : countId l i = 0 := by
  induction l with
  | nil => rfl
  | cons p t ih =>
    simp only [ids, List.map_cons, List.mem_cons] at h
    push_neg at h
    have hp : ¬ p.id = i := fun c => h.1 c.symm
    simp only [countId, List.filter_cons]
    rw [if_neg (by simp [hp])]
    exact ih h.2

theorem countId_cons (p : IPluginDescription) (t : List IPluginDescription) (i : String) :
    countId (p :: t) i = (if p.id = i then 1 else 0) + countId t i := by
  by_cases hp : p.id = i
  · simp [countId, List.filter_cons, hp, Nat.add_comm]
  · simp [countId, List.filter_cons, hp]

theorem countId_of_nodup (l : List IPluginDescription) (i : String) (hl : idsNodup l) :
    countId l i = if i ∈ ids l then 1 else 0 := by
  induction l with
  | nil => simp [countId, ids]
  | cons p t ih =>
    simp only [idsNodup, ids, List.map_cons, List.nodup_cons] at hl
    rw [countId_cons]
    by_cases hp : p.id = i
    · have ht : i ∉ ids t := fun hmem => hl.1 (hp ▸ hmem)
      rw [if_pos hp, countId_eq_zero_of_not_mem t i ht,
        if_pos (show i ∈ ids (p :: t) by simp [ids, hp])]
    · rw [if_neg hp, ih hl.2, Nat.zero_add]
      have hiff : i ∈ ids (p :: t) ↔ i ∈ ids t := by
        simp only [ids, List.map_cons, List.mem_cons]
        constructor
        · rintro (h1 | h1)
          · exact absurd h1.symm hp
          · exact h1
        · exact Or.inr
      by_cases hm : i ∈ ids t
      · rw [if_pos hm, if_pos (hiff.mpr hm)]
      · rw [if_neg hm, if_neg (fun c => hm (hiff.mp c))]

theorem foldl_mergeBuiltinStep_eq (l : List IPluginDescription)
    (st : List IPluginDescription × List IMessage) :
    l.foldl mergeBuiltinStep st = (l.foldl mapSet st.1, st.2) := by
  induction l generalizing st with
  | nil => rfl
  | cons p t ih => rw [List.foldl_cons, ih (mergeBuiltinStep st p)]; rfl

theorem fst_foldl_mergeUserStep (l : List IPluginDescription)
    (st : List IPluginDescription × List IMessage) :
    (l.foldl mergeUserStep st).1 = l.foldl mapSet st.1 := by
  induction l generalizing st with
  | nil => rfl
  | cons p t ih =>
    rw [List.foldl_cons, List.foldl_cons, ih (mergeUserStep st p)]
    rcases h : findId st.1 p.id with _ | q <;> simp [mergeUserStep, h]

theorem fst_foldl_mergeDevStep (l : List IPluginDescription)
    (st : List IPluginDescription × List IMessage) :
    (l.foldl mergeDevStep st).1 = l.foldl mapSet st.1 := by
  induction l generalizing st with
  | nil => rfl
  | cons p t ih =>
    rw [List.foldl_cons, List.foldl_cons, ih (mergeDevStep st p)]
    rcases h : findId st.1 p.id with _ | q <;> simp [mergeDevStep, h]

theorem mem_snd_foldl_mergeUserStep (l : List IPluginDescription)
    (st : List IPluginDescription × List IMessage) (x : IMessage) (hx : x ∈ st.2) :
    x ∈ (l.foldl mergeUserStep st).2 := by
  induction l generalizing st with
  | nil => exact hx
  | cons p t ih =>
    rw [List.foldl_cons]
    refine ih (mergeUserStep st p) ?_
    rcases h : findId st.1 p.id with _ | q <;>
      simp [mergeUserStep, h, List.mem_append, hx]

theorem mem_snd_foldl_mergeDevStep (l : List IPluginDescription)
    (st : List IPluginDescription × List IMessage) (x : IMessage) (hx : x ∈ st.2) :
    x ∈ (l.foldl mergeDevStep st).2 := by
  induction l generalizing st with
  | nil => exact hx
  | cons p t ih =>
    rw [List.foldl_cons]
    refine ih (mergeDevStep st p) ?_
    rcases h : findId st.1 p.id with _ | q <;>
      simp [mergeDevStep, h, List.mem_append, hx]

theorem userStep_warns (l : List IPluginDescription)
    (st : List IPluginDescription × List IMessage) (hl : idsNodup l)
    (p : IPluginDescription) (hp : p ∈ l) (q : IPluginDescription)
    (hq : findId st.1 p.id = some q) :
    overwriteWarning q p ∈ (l.foldl mergeUserStep st).2 := by
  induction l generalizing st with
  | nil => cases hp
  | cons r t ih =>
    simp only [idsNodup, ids, List.map_cons, List.nodup_cons] at hl
    rw [List.foldl_cons]
    rcases List.mem_cons.mp hp with hpr | hpt
    · subst hpr
      refine mem_snd_foldl_mergeUserStep t (mergeUserStep st p) _ ?_
      simp [mergeUserStep, hq, List.mem_append]
    · have hne : r.id ≠ p.id := by
        intro c
        exact hl.1 (c ▸ List.mem_map_of_mem IPluginDescription.id hpt)
      have hq' : findId (mergeUserStep st r).1 p.id = some q := by
        have h1 : (mergeUserStep st r).1 = mapSet st.1 r := by
          rcases h : findId st.1 r.id with _ | s <;> simp [mergeUserStep, h]
        rw [h1, findId_mapSet, if_neg hne]
        exact hq
      exact ih (mergeUserStep st r) hl.2 hpt hq'

theorem devStep_warns (l : List IPluginDescription)
    (st : List IPluginDescription × List IMessage) (hl : idsNodup l)
    (p : IPluginDescription) (hp : p ∈ l) (q : IPluginDescription)
    (hq : findId st.1 p.id = some q) :
    overwriteWarning q p ∈ (l.foldl mergeDevStep st).2 := by
  induction l generalizing st with
  | nil => cases hp
  | cons r t ih =>
    simp only [idsNodup, ids, List.map_cons, List.nodup_cons] at hl
    rw [List.foldl_cons]
    rcases List.mem_cons.mp hp with hpr | hpt
    · subst hpr
      refine mem_snd_foldl_mergeDevStep t (mergeDevStep st p) _ ?_
      simp [mergeDevStep, hq, List.mem_append]
    · have hne : r.id ≠ p.id := by
        intro c
        exact hl.1 (c ▸ List.mem_map_of_mem IPluginDescription.id hpt)
      have hq' : findId (mergeDevStep st r).1 p.id = some q := by
        have h1 : (mergeDevStep st r).1 = mapSet st.1 r := by
          rcases h : findId st.1 r.id with _ | s <;> simp [mergeDevStep, h]
        rw [h1, findId_mapSet, if_neg hne]
        exact hq
      exact ih (mergeDevStep st r) hl.2 hpt hq'

theorem devStep_loadInfo (l : List IPluginDescription)
    (st : List IPluginDescription × List IMessage)
    (p : IPluginDescription) (hp : p ∈ l) :
    devLoadInfo p ∈ (l.foldl mergeDevStep st).2 := by
  induction l generalizing st with
  | nil => cases hp
  | cons r t ih =>
    rw [List.foldl_cons]
    rcases List.mem_cons.mp hp with hpr | hpt
    · subst hpr
      refine mem_snd_foldl_mergeDevStep t (mergeDevStep st p) _ ?_
      rcases h : findId st.1 p.id with _ | s <;>
        simp [mergeDevStep, h, List.mem_append]
    · exact ih (mergeDevStep st r) hpt

theorem builtin_phase_eq (b : List IPluginDescription) :
    b.foldl mergeBuiltinStep ([], []) = (builtinMap b, ([] : List IMessage)) := by
  rw [foldl_mergeBuiltinStep_eq]
  rfl

theorem scanPlugins_eq (b u d : List IPluginDescription) :
    scanPlugins b u d
      = d.foldl mergeDevStep (u.foldl mergeUserStep (builtinMap b, [])) := by
  simp only [scanPlugins, builtin_phase_eq]

theorem scanPlugins_fst (b u d : List IPluginDescription) :
    (scanPlugins b u d).1 = d.foldl mapSet (builtinUserMap b u) := by
  rw [scanPlugins_eq, fst_foldl_mergeDevStep, fst_foldl_mergeUserStep]
  rfl

theorem idsNodup_scanPlugins (b u d : List IPluginDescription) :
    idsNodup (scanPlugins b u d).1 := by
  rw [scanPlugins_fst]
  exact idsNodup_foldl_mapSet d _
    (idsNodup_foldl_mapSet u _
      (idsNodup_foldl_mapSet b _ (by simp [idsNodup, ids])))

theorem findId_scanPlugins (b u d : List IPluginDescription) (i : String)
    (hb : idsNodup b) (hu : idsNodup u) (hd : idsNodup d) :
    findId (scanPlugins b u d).1 i = precedenceChoice b u d i := by
  rw [scanPlugins_fst, findId_foldl_mapSet d _ i hd]
  rw [show builtinUserMap b u = u.foldl mapSet (builtinMap b) from rfl]
  rw [findId_foldl_mapSet u _ i hu]
  rw [show builtinMap b = b.foldl mapSet [] from rfl]
  rw [findId_foldl_mapSet b _ i hb, findId_nil]
  rcases hdi : findId d i with _ | p <;> rcases hui : findId u i with _ | p' <;>
    rcases hbi : findId b i with _ | p'' <;>
    simp [precedenceChoice, hdi, hui, hbi]

theorem mem_ids_scanPlugins (b u d : List IPluginDescription) (i : String) :
    i ∈ ids (scanPlugins b u d).1 ↔ i ∈ ids b ∨ i ∈ ids u ∨ i ∈ ids d := by
  rw [scanPlugins_fst]
  rw [show builtinUserMap b u = u.foldl mapSet (builtinMap b) from rfl]
  rw [show builtinMap b = b.foldl mapSet [] from rfl]
  rw [mem_ids_foldl_mapSet, mem_ids_foldl_mapSet, mem_ids_foldl_mapSet]
  have h0 : ¬ i ∈ ids ([] : List IPluginDescription) := by simp [ids]
  tauto

/-- C1: for every plugin id appearing in more than one scanned source,
`scanPlugins` returns exactly one descriptor for that id, namely the one
of the highest-precedence source (builtin < userInstall < development);
every overwrite of an earlier-source descriptor by a later-source one
with the same id emits a warning diagnostic naming both install
locations, and every development-mode load emits an informational
diagnostic. -/
theorem C1_scan_merge_precedence (b u d : List IPluginDescription)
    (hb : idsNodup b) (hu : idsNodup u) (hd : idsNodup d)
    (i : String) (hi : inMultipleSources b u d i) :
    countId (scanPlugins b u d).1 i = 1
    ∧ findId (scanPlugins b u d).1 i = precedenceChoice b u d i
    ∧ (∀ p ∈ u, ∀ q, findId (builtinMap b) p.id = some q →
        overwriteWarning q p ∈ (scanPlugins b u d).2)
    ∧ (∀ p ∈ d, ∀ q, findId (builtinUserMap b u) p.id = some q →
        overwriteWarning q p ∈ (scanPlugins b u d).2)
    ∧ (∀ p ∈ d, devLoadInfo p ∈ (scanPlugins b u d).2) := by
  have hmem : i ∈ ids (scanPlugins b u d).1 := by
    rw [mem_ids_scanPlugins]
    rcases hi with ⟨h1, h2⟩ | ⟨h1, h2⟩ | ⟨h1, h2⟩ <;> tauto
  refine ⟨?_, findId_scanPlugins b u d i hb hu hd, ?_, ?_, ?_⟩
  · rw [countId_of_nodup _ i (idsNodup_scanPlugins b u d), if_pos hmem]
  · intro p hp q hq
    rw [scanPlugins_eq]
    exact mem_snd_foldl_mergeDevStep d _ _
      (userStep_warns u (builtinMap b, []) hu p hp q hq)
  · intro p hp q hq
    rw [scanPlugins_eq]
    refine devStep_warns d _ hd p hp q ?_
    rw [fst_foldl_mergeUserStep]
    exact hq
  · intro p hp
    rw [scanPlugins_eq]
    exact devStep_loadInfo d _ p hp

/-- C1 witness: the spec's scenario — builtin source has `a` at
`/builtin/a`, the user source has `a` at `/user/a`, no development
source; the merged collection holds exactly the user descriptor for `a`
and the overwrite warning names both locations. -/
theorem C1_scan_merge_precedence_witness :
    countId (scanPlugins [⟨"a", "/builtin/a", none⟩] [⟨"a", "/user/a", none⟩] []).1 "a" = 1
    ∧ findId (scanPlugins [⟨"a", "/builtin/a", none⟩] [⟨"a", "/user/a", none⟩] []).1 "a"
        = precedenceChoice [⟨"a", "/builtin/a", none⟩] [⟨"a", "/user/a", none⟩] [] "a"
    ∧ (∀ p ∈ [(⟨"a", "/user/a", none⟩ : IPluginDescription)], ∀ q,
        findId (builtinMap [⟨"a", "/builtin/a", none⟩]) p.id = some q →
          overwriteWarning q p
            ∈ (scanPlugins [⟨"a", "/builtin/a", none⟩] [⟨"a", "/user/a", none⟩] []).2)
    ∧ (∀ p ∈ ([] : List IPluginDescription), ∀ q,
        findId (builtinUserMap [⟨"a", "/builtin/a", none⟩] [⟨"a", "/user/a", none⟩]) p.id
            = some q →
          overwriteWarning q p
            ∈ (scanPlugins [⟨"a", "/builtin/a", none⟩] [⟨"a", "/user/a", none⟩] []).2)
    ∧ (∀ p ∈ ([] : List IPluginDescription),
        devLoadInfo p
          ∈ (scanPlugins [⟨"a", "/builtin/a", none⟩] [⟨"a", "/user/a", none⟩] []).2) :=
  C1_scan_merge_precedence [⟨"a", "/builtin/a", none⟩] [⟨"a", "/user/a", none⟩] []
    (by simp [idsNodup, ids]) (by simp [idsNodup, ids]) (by simp [idsNodup, ids])
    "a" (Or.inl ⟨by simp [ids], by simp [ids]⟩)

/-- C3: the test stage runs only when both `pluginTestsPath` and
`pluginDevelopmentPath` are present; with both present and a module
exporting `run`, the runner is invoked with the tests path and process
exit is scheduled 800ms after its callback fires (with or without an
error); without test configuration the stage is skipped and no exit is
scheduled. -/
theorem C3_test_stage_contract (tp dp : String) (htp : tp ≠ "") (hdp : dp ≠ "")
    (runFn : String → Option String) :
    handlePluginTests ⟨some tp, some dp⟩ (Except.ok ⟨some runFn⟩)
        = ⟨true, some tp, some 800, runFn tp⟩
    ∧ (∀ env : IEnvironment, ∀ req,
        (jsTruthyOptString env.pluginTestsPath = false
          ∨ jsTruthyOptString env.pluginDevelopmentPath = false) →
        handlePluginTests env req = ⟨false, none, none, none⟩) := by
  constructor
  · simp [handlePluginTests, jsTruthyOptString, htp, hdp]
  · intro env req h
    rcases h with h | h <;> simp [handlePluginTests, h]

/-- C3 witness: the spec's scenario — `pluginTestsPath = "/t"`,
`pluginDevelopmentPath = "/d"`, a runner calling back without error:
the runner is invoked with `"/t"` and exit is scheduled after 800ms with
no error reported; with no test configuration nothing runs. -/
theorem C3_test_stage_contract_witness :
    handlePluginTests ⟨some "/t", some "/d"⟩ (Except.ok ⟨some (fun _ => none)⟩)
        = ⟨true, some "/t", some 800, (fun _ => none) "/t"⟩
    ∧ (∀ env : IEnvironment, ∀ req,
        (jsTruthyOptString env.pluginTestsPath = false
          ∨ jsTruthyOptString env.pluginDevelopmentPath = false) →
        handlePluginTests env req = ⟨false, none, none, none⟩) :=
  C3_test_stage_contract "/t" "/d" (by decide) (by decide) (fun _ => none)

/-- C4: with a test run configured, a failing `require` or a module
without a `run` function still schedules process exit — immediately,
delay 0 — after reporting a descriptive error (the require error, or the
invalid-runner message). -/
theorem C4_test_runner_error_terminates (tp dp : String) (htp : tp ≠ "") (hdp : dp ≠ "")
    (e : String) (m : ITestRunnerModule) (hm : m.run = none) :
    handlePluginTests ⟨some tp, some dp⟩ (Except.error e)
        = ⟨false, none, some 0, some e⟩
    ∧ handlePluginTests ⟨some tp, some dp⟩ (Except.ok m)
        = ⟨false, none, some 0, some (testRunnerInvalidMessage tp)⟩ := by
  constructor <;> simp [handlePluginTests, jsTruthyOptString, htp, hdp, hm]

/-- C4 witness: the spec's scenario at `"/t"`, `"/d"`: a require error
`"boom"` and a runless module both yield an immediate scheduled exit
with the descriptive error reported. -/
theorem C4_test_runner_error_terminates_witness :
    handlePluginTests ⟨some "/t", some "/d"⟩ (Except.error "boom")
        = ⟨false, none, some 0, some "boom"⟩
    ∧ handlePluginTests ⟨some "/t", some "/d"⟩ (Except.ok ⟨none⟩)
        = ⟨false, none, some 0, some (testRunnerInvalidMessage "/t")⟩ :=
  C4_test_runner_error_terminates "/t" "/d" (by decide) (by decide) "boom" ⟨none⟩ rfl

theorem filterMap_dispatchedMsg_map {M : Type} (l : List M) :
    (l.map (HandshakeEvent.dispatched (M := M))).filterMap dispatchedMsg = l := by
  induction l with
  | nil => rfl
  | cons x t ih => simp [List.filterMap_cons, dispatchedMsg, ih]

theorem countP_isConsumedInit_map {M : Type} (l : List M) :
    (l.map (HandshakeEvent.dispatched (M := M))).countP isConsumedInit = 0 := by
  induction l with
  | nil => rfl
  | cons x t ih => simp [List.countP_cons, isConsumedInit, ih]

/-- C5: the handshake sends `"ready"` before consuming the single Init
Data message; wiring of later messages into dispatch precedes the
`"initialized"` signal; exactly one message is consumed as Init Data and
every later inbound message is dispatched, in order. -/
theorem C5_handshake_order {M : Type} (inbound : List M) (msg : M) (rest : List M)
    (h : inbound = msg :: rest) :
    connectToRenderer inbound
        = HandshakeEvent.sent "ready" :: HandshakeEvent.consumedInitData msg ::
          HandshakeEvent.wiredToDispatch :: HandshakeEvent.sent "initialized" ::
          rest.map HandshakeEvent.dispatched
    ∧ (connectToRenderer inbound).countP isConsumedInit = 1
    ∧ (connectToRenderer inbound).filterMap dispatchedMsg = rest := by
  subst h
  refine ⟨rfl, ?_, ?_⟩
  · simp [connectToRenderer, List.countP_cons, isConsumedInit, countP_isConsumedInit_map]
  · exact filterMap_dispatchedMsg_map rest

/-- C5 witness: with inbound messages `[0, 1, 2]`, the trace is
`ready`, consume Init Data `0`, wire, `initialized`, dispatch `1`,
dispatch `2`; one consumption, dispatches `[1, 2]`. -/
theorem C5_handshake_order_witness :
    connectToRenderer [0, 1, 2]
        = HandshakeEvent.sent "ready" :: HandshakeEvent.consumedInitData 0 ::
          HandshakeEvent.wiredToDispatch :: HandshakeEvent.sent "initialized" ::
          ([1, 2] : List Nat).map HandshakeEvent.dispatched
    ∧ (connectToRenderer [0, 1, 2]).countP isConsumedInit = 1
    ∧ (connectToRenderer ([0, 1, 2] : List Nat)).filterMap dispatchedMsg = [1, 2] :=
  C5_handshake_order [0, 1, 2] 0 [1, 2] rfl

theorem exited_mem_superviseRun (evs : List SupervisedEvent) :
    SupervisedAction.exitedProcess ∈ superviseRun evs
      ↔ SupervisedEvent.probeTick false ∈ evs := by
  induction evs with
  | nil => simp [superviseRun]
  | cons e rest ih =>
    cases e with
    | probeTick alive =>
      cases alive
      · simp [superviseRun]
      · simp [superviseRun, ih]
    | uncaughtException e => simp [superviseRun, ih]
    | unhandledRejection r => simp [superviseRun, ih]

theorem superviseRun_no_parent_death (evs : List SupervisedEvent)
    (h : SupervisedEvent.probeTick false ∉ evs) :
    superviseRun evs = evs.filterMap reportOf := by
  induction evs with
  | nil => rfl
  | cons e rest ih =>
    have hr : SupervisedEvent.probeTick false ∉ rest :=
      fun c => h (List.mem_cons_of_mem _ c)
    cases e with
    | probeTick alive =>
      cases alive
      · exact absurd (List.mem_cons_self _ _) h
      · simp [superviseRun, List.filterMap_cons, reportOf, ih hr]
    | uncaughtException e => simp [superviseRun, List.filterMap_cons, reportOf, ih hr]
    | unhandledRejection r => simp [superviseRun, List.filterMap_cons, reportOf, ih hr]

/-- C9: in any run of the supervised process, the process exits exactly
when some liveness probe finds the parent gone (polled every 5000ms with
signal 0, a side-effect-free probe), and the exit is the run's final
action; when no probe fails, the run is exactly the reports of the
uncaught errors and unhandled rejections — errors are reported but never
by themselves cause termination. -/
theorem C9_supervisor_termination (evs : List SupervisedEvent) :
    (SupervisedAction.exitedProcess ∈ superviseRun evs
      ↔ SupervisedEvent.probeTick false ∈ evs)
    ∧ (SupervisedEvent.probeTick false ∉ evs →
        superviseRun evs = evs.filterMap reportOf
        ∧ SupervisedAction.exitedProcess ∉ superviseRun evs)
    ∧ livenessPollIntervalMs = 5000
    ∧ parentProbeSignal = 0 := by
  refine ⟨exited_mem_superviseRun evs, fun h => ⟨superviseRun_no_parent_death evs h, ?_⟩,
    rfl, rfl⟩
  exact fun c => h ((exited_mem_superviseRun evs).mp c)

/-- C9 witness: a run with an uncaught exception, a live probe, an
unhandled rejection and no parent death reports both errors and never
exits. -/
theorem C9_supervisor_termination_witness :
    (SupervisedAction.exitedProcess
        ∈ superviseRun [SupervisedEvent.uncaughtException "e",
            SupervisedEvent.probeTick true, SupervisedEvent.unhandledRejection "r"]
      ↔ SupervisedEvent.probeTick false
        ∈ [SupervisedEvent.uncaughtException "e",
            SupervisedEvent.probeTick true, SupervisedEvent.unhandledRejection "r"])
    ∧ (SupervisedEvent.probeTick false
        ∉ [SupervisedEvent.uncaughtException "e",
            SupervisedEvent.probeTick true, SupervisedEvent.unhandledRejection "r"] →
        superviseRun [SupervisedEvent.uncaughtException "e",
            SupervisedEvent.probeTick true, SupervisedEvent.unhandledRejection "r"]
          = [SupervisedEvent.uncaughtException "e",
              SupervisedEvent.probeTick true,
              SupervisedEvent.unhandledRejection "r"].filterMap reportOf
        ∧ SupervisedAction.exitedProcess
          ∉ superviseRun [SupervisedEvent.uncaughtException "e",
              SupervisedEvent.probeTick true, SupervisedEvent.unhandledRejection "r"])
    ∧ livenessPollIntervalMs = 5000
    ∧ parentProbeSignal = 0 :=
  C9_supervisor_termination [SupervisedEvent.uncaughtException "e",
    SupervisedEvent.probeTick true, SupervisedEvent.unhandledRejection "r"]

theorem string_append_cancel_left (s a b : String) (h : s ++ a = s ++ b) : a = b := by
  have hd := congrArg String.data h
  rw [String.data_append, String.data_append] at hd
  exact String.ext (List.append_cancel_left hd)

theorem mem_addDesiredFile (acc : List String) (f x : String) :
    x ∈ addDesiredFile acc f ↔ x ∈ acc ∨ x = f := by
  by_cases h : f ∈ acc
  · simp only [addDesiredFile, if_pos h]
    constructor
    · exact Or.inl
    · rintro (hx | rfl)
      · exact hx
      · exact h
  · simp [addDesiredFile, if_neg h]

theorem nodup_addDesiredFile (acc : List String) (f : String) (h : acc.Nodup) :
    (addDesiredFile acc f).Nodup := by
  by_cases hf : f ∈ acc
  · simpa [addDesiredFile, hf] using h
  · simp [addDesiredFile, hf, List.nodup_append, h]

theorem desiredFileStep_none (acc : List String) (ev : String)
    (h : workspaceContainsFileOf ev = none) : desiredFileStep acc ev = acc := by
  unfold desiredFileStep
  rw [h]

theorem desiredFileStep_some (acc : List String) (ev f : String)
    (h : workspaceContainsFileOf ev = some f) :
    desiredFileStep acc ev = addDesiredFile acc f := by
  unfold desiredFileStep
  rw [h]

theorem mem_foldl_desiredFileStep (evs : List String) (acc : List String) (x : String) :
    x ∈ evs.foldl desiredFileStep acc
      ↔ x ∈ acc ∨ ∃ ev ∈ evs, workspaceContainsFileOf ev = some x := by
  induction evs generalizing acc with
  | nil => simp
  | cons e t ih =>
    rw [List.foldl_cons, ih]
    rcases h : workspaceContainsFileOf e with _ | f
    · rw [desiredFileStep_none acc e h]
      constructor
      · rintro (hx | ⟨ev, hev, hx⟩)
        · exact Or.inl hx
        · exact Or.inr ⟨ev, List.mem_cons_of_mem _ hev, hx⟩
      · rintro (hx | ⟨ev, hev, hx⟩)
        · exact Or.inl hx
        · rcases List.mem_cons.mp hev with rfl | hev'
          · rw [h] at hx
            cases hx
          · exact Or.inr ⟨ev, hev', hx⟩
    · rw [desiredFileStep_some acc e f h, mem_addDesiredFile]
      constructor
      · rintro ((hx | rfl) | ⟨ev, hev, hx⟩)
        · exact Or.inl hx
        · exact Or.inr ⟨e, List.mem_cons_self _ _, h⟩
        · exact Or.inr ⟨ev, List.mem_cons_of_mem _ hev, hx⟩
      · rintro (hx | ⟨ev, hev, hx⟩)
        · exact Or.inl (Or.inl hx)
        · rcases List.mem_cons.mp hev with rfl | hev'
          · rw [h] at hx
            exact Or.inl (Or.inr (Option.some.inj hx).symm)
          · exact Or.inr ⟨ev, hev', hx⟩

theorem mem_foldl_desiredFilesOfDesc (descs : List IPluginDescription)
    (acc : List String) (x : String) :
    x ∈ descs.foldl desiredFilesOfDesc acc
      ↔ x ∈ acc ∨ ∃ desc ∈ descs, ∃ evs, desc.activationEvents = some evs ∧
          ∃ ev ∈ evs, workspaceContainsFileOf ev = some x := by
  induction descs generalizing acc with
  | nil => simp
  | cons dsc t ih =>
    rw [List.foldl_cons, ih]
    rcases h : dsc.activationEvents with _ | evs
    · simp only [desiredFilesOfDesc, h]
      constructor
      · rintro (hx | ⟨d, hd, rest⟩)
        · exact Or.inl hx
        · exact Or.inr ⟨d, List.mem_cons_of_mem _ hd, rest⟩
      · rintro (hx | ⟨d, hd, evs', he, rest⟩)
        · exact Or.inl hx
        · rcases List.mem_cons.mp hd with rfl | hd'
          · rw [h] at he
            cases he
          · exact Or.inr ⟨d, hd', evs', he, rest⟩
    · simp only [desiredFilesOfDesc, h]
      rw [mem_foldl_desiredFileStep]
      constructor
      · rintro ((hx | ⟨ev, hev, hx⟩) | ⟨d, hd, rest⟩)
        · exact Or.inl hx
        · exact Or.inr ⟨dsc, List.mem_cons_self _ _, evs, h, ev, hev, hx⟩
        · exact Or.inr ⟨d, List.mem_cons_of_mem _ hd, rest⟩
      · rintro (hx | ⟨d, hd, evs', he, ev, hev, hx⟩)
        · exact Or.inl (Or.inl hx)
        · rcases List.mem_cons.mp hd with rfl | hd'
          · rw [h] at he
            obtain rfl := Option.some.inj he
            exact Or.inl (Or.inr ⟨ev, hev, hx⟩)
          · exact Or.inr ⟨d, hd', evs', he, ev, hev, hx⟩

theorem mem_desiredFiles (descs : List IPluginDescription) (x : String) :
    x ∈ desiredFiles descs ↔ declaresWorkspaceFile descs x := by
  simp only [desiredFiles, declaresWorkspaceFile]
  rw [mem_foldl_desiredFilesOfDesc]
  simp

theorem nodup_foldl_desiredFileStep (evs : List String) (acc : List String)
    (h : acc.Nodup) : (evs.foldl desiredFileStep acc).Nodup := by
  induction evs generalizing acc with
  | nil => exact h
  | cons e t ih =>
    rw [List.foldl_cons]
    refine ih _ ?_
    rcases he : workspaceContainsFileOf e with _ | f
    · rw [desiredFileStep_none acc e he]
      exact h
    · rw [desiredFileStep_some acc e f he]
      exact nodup_addDesiredFile acc f h

theorem nodup_foldl_desiredFilesOfDesc (descs : List IPluginDescription)
    (acc : List String) (h : acc.Nodup) : (descs.foldl desiredFilesOfDesc acc).Nodup := by
  induction descs generalizing acc with
  | nil => exact h
  | cons dsc t ih =>
    rw [List.foldl_cons]
    refine ih _ ?_
    rcases hd : dsc.activationEvents with _ | evs
    · simpa [desiredFilesOfDesc, hd] using h
    · simp only [desiredFilesOfDesc, hd]
      exact nodup_foldl_desiredFileStep evs acc h

theorem nodup_desiredFiles (descs : List IPluginDescription) : (desiredFiles descs).Nodup := by
  simp only [desiredFiles]
  exact nodup_foldl_desiredFilesOfDesc descs [] (by simp)

theorem requestsOf_append (a b : List LifeEvent) :
    requestsOf (a ++ b) = requestsOf a ++ requestsOf b := by
  simp [requestsOf, List.filterMap_append]

theorem requestsOf_activationAttempt (ae : String → Option String) (ev : String) :
    requestsOf (activationAttempt ae ev) = [ev] := by
  rcases h : ae ev with _ | e <;>
    simp [activationAttempt, h, requestsOf, List.filterMap_cons, requestEvent]

theorem requestsOf_foldl_wsActivationOnResult (ae : String → Option String)
    (results : List (Option String)) (acc : List LifeEvent) :
    requestsOf (results.foldl (wsActivationOnResult ae) acc)
      = requestsOf acc ++ results.filterMap requestOfResult := by
  induction results generalizing acc with
  | nil => simp
  | cons r t ih =>
    rw [List.foldl_cons, ih]
    rcases r with _ | f
    · simp [wsActivationOnResult, requestOfResult, List.filterMap_cons]
    · by_cases hf : f = ""
      · subst hf
        simp [wsActivationOnResult, requestOfResult, List.filterMap_cons]
      · simp [wsActivationOnResult, requestOfResult, List.filterMap_cons, hf,
          requestsOf_append, requestsOf_activationAttempt]

theorem requestsOf_fileChecks (root : String) (files : List String) :
    requestsOf (files.map (fun f => LifeEvent.fileCheck (pathJoin root f) f)) = [] := by
  induction files with
  | nil => rfl
  | cons f t ih =>
    simp only [List.map_cons, requestsOf, List.filterMap_cons, requestEvent] at ih ⊢
    exact ih

theorem requestsOf_wsStage (descs : List IPluginDescription) (r : WorkspaceResource)
    (fe : String → Bool) (ae : String → Option String) :
    requestsOf (handleWorkspaceContainsEagerPlugins descs (some ⟨some r⟩) fe ae)
      = (desiredFiles descs).filterMap
          (fun f => requestOfResult (fileExistsWithResult fe (pathJoin r.fsPath f) f)) := by
  have hsplit : handleWorkspaceContainsEagerPlugins descs (some ⟨some r⟩) fe ae
      = (desiredFiles descs).map
          (fun g => LifeEvent.fileCheck (pathJoin r.fsPath g) g)
        ++ ((desiredFiles descs).map
              (fun g => fileExistsWithResult fe (pathJoin r.fsPath g) g)).foldl
            (wsActivationOnResult ae) [] := rfl
  rw [hsplit, requestsOf_append, requestsOf_fileChecks,
    requestsOf_foldl_wsActivationOnResult]
  simp only [List.nil_append, requestsOf, List.filterMap_nil, List.filterMap_map]
  rfl

theorem fileExistsWithResult_eq (fe : String → Bool) (path res : String) :
    fileExistsWithResult fe path res = if fe path then some res else none := rfl

theorem requestOfResult_some (f : String) :
    requestOfResult (some f)
      = if f = "" then none else some ("workspaceContains:" ++ f) := rfl

theorem count_request_zero (fe : String → Bool) (root : String) (t : List String)
    (f : String) (hf : f ∉ t) :
    ((t.filterMap
        (fun g => requestOfResult (fileExistsWithResult fe (pathJoin root g) g))).count
      ("workspaceContains:" ++ f)) = 0 := by
  induction t with
  | nil => rfl
  | cons g s ih =>
    have hgf : g ≠ f := fun c => hf (c ▸ List.mem_cons_self _ _)
    have hs : f ∉ s := fun c => hf (List.mem_cons_of_mem _ c)
    by_cases hfe : fe (pathJoin root g) = true
    · by_cases hg : g = ""
      · have hhead : requestOfResult (fileExistsWithResult fe (pathJoin root g) g) = none := by
          rw [fileExistsWithResult_eq, if_pos hfe, requestOfResult_some, if_pos hg]
        rw [List.filterMap_cons, hhead]
        exact ih hs
      · have hhead : requestOfResult (fileExistsWithResult fe (pathJoin root g) g)
            = some ("workspaceContains:" ++ g) := by
          rw [fileExistsWithResult_eq, if_pos hfe, requestOfResult_some, if_neg hg]
        have hne : ("workspaceContains:" ++ g) ≠ ("workspaceContains:" ++ f) :=
          fun c => hgf (string_append_cancel_left _ _ _ c)
        rw [List.filterMap_cons, hhead]
        simp [List.count_cons, ih hs, hne]
    · have hhead : requestOfResult (fileExistsWithResult fe (pathJoin root g) g) = none := by
        rw [fileExistsWithResult_eq, if_neg hfe]
        rfl
      rw [List.filterMap_cons, hhead]
      exact ih hs

theorem count_request_files (fe : String → Bool) (root : String) (files : List String)
    (hnd : files.Nodup) (f : String) (hf : f ≠ "") (hmem : f ∈ files) :
    ((files.filterMap
        (fun g => requestOfResult (fileExistsWithResult fe (pathJoin root g) g))).count
      ("workspaceContains:" ++ f))
      = if fe (pathJoin root f) = true then 1 else 0 := by
  induction files with
  | nil => cases hmem
  | cons g t ih =>
    rcases List.mem_cons.mp hmem with rfl | hmt
    · have hft : f ∉ t := (List.nodup_cons.mp hnd).1
      by_cases hfe : fe (pathJoin root f) = true
      · have hhead : requestOfResult (fileExistsWithResult fe (pathJoin root f) f)
            = some ("workspaceContains:" ++ f) := by
          rw [fileExistsWithResult_eq, if_pos hfe, requestOfResult_some, if_neg hf]
        rw [if_pos hfe, List.filterMap_cons, hhead]
        simp [List.count_cons, count_request_zero fe root t f hft]
      · have hhead : requestOfResult (fileExistsWithResult fe (pathJoin root f) f) = none := by
          rw [fileExistsWithResult_eq, if_neg hfe]
          rfl
        rw [if_neg hfe, List.filterMap_cons, hhead]
        exact count_request_zero fe root t f hft
    · have hgf : g ≠ f := fun c => ((List.nodup_cons.mp hnd).1) (c ▸ hmt)
      have ht := ih (List.nodup_cons.mp hnd).2 hmt
      by_cases hfe : fe (pathJoin root g) = true
      · by_cases hg : g = ""
        · have hhead : requestOfResult (fileExistsWithResult fe (pathJoin root g) g) = none := by
            rw [fileExistsWithResult_eq, if_pos hfe, requestOfResult_some, if_pos hg]
          rw [List.filterMap_cons, hhead]
          exact ht
        · have hhead : requestOfResult (fileExistsWithResult fe (pathJoin root g) g)
              = some ("workspaceContains:" ++ g) := by
            rw [fileExistsWithResult_eq, if_pos hfe, requestOfResult_some, if_neg hg]
          have hne : ("workspaceContains:" ++ g) ≠ ("workspaceContains:" ++ f) :=
            fun c => hgf (string_append_cancel_left _ _ _ c)
          rw [List.filterMap_cons, hhead]
          simp [List.count_cons, ht, hne]
      · have hhead : requestOfResult (fileExistsWithResult fe (pathJoin root g) g) = none := by
          rw [fileExistsWithResult_eq, if_neg hfe]
          rfl
        rw [List.filterMap_cons, hhead]
        exact ht

theorem countP_fileCheckFor_checks (root : String) (files : List String) (f : String) :
    ((files.map (fun g => LifeEvent.fileCheck (pathJoin root g) g)).countP
        (isFileCheckFor f))
      = files.count f := by
  induction files with
  | nil => rfl
  | cons g t ih =>
    simp [List.countP_cons, List.count_cons, isFileCheckFor, ih]

theorem foldl_wsActivationOnResult_events (ae : String → Option String)
    (P : LifeEvent → Prop)
    (hreq : ∀ ev, P (LifeEvent.activationRequest ev))
    (hlog : ∀ ev err, P (LifeEvent.activationErrorLogged ev err))
    (results : List (Option String)) (acc : List LifeEvent)
    (hacc : ∀ e ∈ acc, P e) :
    ∀ e ∈ results.foldl (wsActivationOnResult ae) acc, P e := by
  induction results generalizing acc with
  | nil => exact hacc
  | cons r t ih =>
    rw [List.foldl_cons]
    refine ih _ ?_
    rcases r with _ | fx
    · exact hacc
    · by_cases hfx : fx = ""
      · intro e he
        simp only [wsActivationOnResult, if_pos hfx] at he
        exact hacc e he
      · intro e he
        simp only [wsActivationOnResult, if_neg hfx] at he
        rcases List.mem_append.mp he with h1 | h1
        · exact hacc e h1
        · rcases hae : ae ("workspaceContains:" ++ fx) with _ | er <;>
            simp only [activationAttempt, hae, List.mem_cons, List.mem_singleton,
              List.not_mem_nil, or_false] at h1
          · subst h1
            exact hreq _
          · rcases h1 with rfl | rfl
            · exact hreq _
            · exact hlog _ _

/-- C2 (amended): during the eager-activation stage with a workspace
root, exactly one file-existence check is performed per distinct
declared filename; for every distinct `workspaceContains:<file>` event
string with a nonempty filename declared by at least one registered
descriptor — even by several — exactly one activation request is issued
for that event when the named file exists at the workspace root, and
none when it does not.  (For the empty filename the check is performed
but no request is ever issued; see the counterexample.) -/
theorem C2_workspace_contains_fanout (descs : List IPluginDescription)
    (r : WorkspaceResource) (fe : String → Bool) (ae : String → Option String)
    (f : String) (hf : f ≠ "") (hdecl : declaresWorkspaceFile descs f) :
    ((handleWorkspaceContainsEagerPlugins descs (some ⟨some r⟩) fe ae).countP
        (isFileCheckFor f)) = 1
    ∧ ((requestsOf (handleWorkspaceContainsEagerPlugins descs (some ⟨some r⟩) fe ae)).count
        ("workspaceContains:" ++ f))
      = if fe (pathJoin r.fsPath f) = true then 1 else 0 := by
  have hmem : f ∈ desiredFiles descs := (mem_desiredFiles descs f).mpr hdecl
  have hnd := nodup_desiredFiles descs
  constructor
  · have hsplit : handleWorkspaceContainsEagerPlugins descs (some ⟨some r⟩) fe ae
        = (desiredFiles descs).map
            (fun g => LifeEvent.fileCheck (pathJoin r.fsPath g) g)
          ++ ((desiredFiles descs).map
                (fun g => fileExistsWithResult fe (pathJoin r.fsPath g) g)).foldl
              (wsActivationOnResult ae) [] := rfl
    rw [hsplit, List.countP_append, countP_fileCheckFor_checks]
    have hz : ((((desiredFiles descs).map
          (fun g => fileExistsWithResult fe (pathJoin r.fsPath g) g)).foldl
            (wsActivationOnResult ae) []).countP (isFileCheckFor f)) = 0 := by
      rw [List.countP_eq_zero]
      intro e he
      have hP := foldl_wsActivationOnResult_events ae
        (fun x => isFileCheckFor f x = false) (fun ev => rfl) (fun ev err => rfl)
        _ [] (fun e h => nomatch h) e he
      simp [hP]
    rw [hz, List.count_eq_one_of_mem hnd hmem]
  · rw [requestsOf_wsStage]
    exact count_request_files fe r.fsPath (desiredFiles descs) hnd f hf hmem

/-- C2 witness: one descriptor declares
`workspaceContains:package.json`; with workspace root `/w` and
`package.json` present there, the stage performs exactly one check for
`package.json` and issues exactly one activation request for the event. -/
theorem C2_workspace_contains_fanout_witness :
    ((handleWorkspaceContainsEagerPlugins
        [⟨"x", "/e/x", some ["workspaceContains:package.json"]⟩]
        (some ⟨some ⟨"/w"⟩⟩) (fun p => p == "/w/package.json") (fun _ => none)).countP
      (isFileCheckFor "package.json")) = 1
    ∧ ((requestsOf (handleWorkspaceContainsEagerPlugins
          [⟨"x", "/e/x", some ["workspaceContains:package.json"]⟩]
          (some ⟨some ⟨"/w"⟩⟩) (fun p => p == "/w/package.json") (fun _ => none))).count
        ("workspaceContains:" ++ "package.json"))
      = if (fun p => p == "/w/package.json") (pathJoin "/w" "package.json") = true
        then 1 else 0 :=
  C2_workspace_contains_fanout
    [⟨"x", "/e/x", some ["workspaceContains:package.json"]⟩] ⟨"/w"⟩
    (fun p => p == "/w/package.json") (fun _ => none) "package.json" (by decide)
    ⟨⟨"x", "/e/x", some ["workspaceContains:package.json"]⟩, by simp,
      ["workspaceContains:package.json"], rfl,
      "workspaceContains:package.json", by simp, by decide⟩

/-- C2 counterexample: the claim as stated fails for the event string
`workspaceContains:` (empty filename).  One descriptor declares exactly
that event; every file exists (`fun _ => true`), so the named file is
present at the workspace root, yet the stage performs the one existence
check and issues zero activation requests — not exactly one — because
the `forEach` body skips the falsy empty-string result. -/
theorem C2_empty_filename_counterexample :
    handleWorkspaceContainsEagerPlugins
        [⟨"x", "/e/x", some ["workspaceContains:"]⟩]
        (some ⟨some ⟨"/w"⟩⟩) (fun _ => true) (fun _ => none)
      = [LifeEvent.fileCheck (pathJoin "/w" "") ""]
    ∧ ((requestsOf (handleWorkspaceContainsEagerPlugins
          [⟨"x", "/e/x", some ["workspaceContains:"]⟩]
          (some ⟨some ⟨"/w"⟩⟩) (fun _ => true) (fun _ => none))).count
        ("workspaceContains:" ++ "")) = 0 := by
  constructor <;> decide

theorem request_mem_activationAttempt (ae : String → Option String) (ev : String) :
    LifeEvent.activationRequest ev ∈ activationAttempt ae ev := by
  rcases h : ae ev with _ | e <;> simp [activationAttempt, h]

theorem request_eq_of_mem_attempt (ae : String → Option String) (ev ev' : String)
    (h : LifeEvent.activationRequest ev' ∈ activationAttempt ae ev) : ev' = ev := by
  rcases hae : ae ev with _ | e <;> simp [activationAttempt, hae] at h <;> exact h

theorem logged_of_request_attempt (ae : String → Option String) (ev ev' err : String)
    (hreq : LifeEvent.activationRequest ev' ∈ activationAttempt ae ev)
    (herr : ae ev' = some err) :
    LifeEvent.activationErrorLogged ev' err ∈ activationAttempt ae ev := by
  obtain rfl := request_eq_of_mem_attempt ae ev ev' hreq
  simp [activationAttempt, herr]

theorem logged_of_request_wsFoldl (ae : String → Option String)
    (results : List (Option String)) (acc : List LifeEvent)
    (hacc : ∀ ev err, LifeEvent.activationRequest ev ∈ acc → ae ev = some err →
        LifeEvent.activationErrorLogged ev err ∈ acc) :
    ∀ ev err,
      LifeEvent.activationRequest ev ∈ results.foldl (wsActivationOnResult ae) acc →
      ae ev = some err →
      LifeEvent.activationErrorLogged ev err ∈ results.foldl (wsActivationOnResult ae) acc := by
  induction results generalizing acc with
  | nil => exact hacc
  | cons r t ih =>
    rw [List.foldl_cons]
    refine ih _ ?_
    intro ev err hreq herr
    rcases r with _ | fx
    · exact hacc ev err hreq herr
    · by_cases hfx : fx = ""
      · simp only [wsActivationOnResult, if_pos hfx] at hreq ⊢
        exact hacc ev err hreq herr
      · simp only [wsActivationOnResult, if_neg hfx] at hreq ⊢
        rcases List.mem_append.mp hreq with h1 | h1
        · exact List.mem_append.mpr (Or.inl (hacc ev err h1 herr))
        · exact List.mem_append.mpr
            (Or.inr (logged_of_request_attempt ae _ ev err h1 herr))

theorem handleWorkspaceContains_shape (descs : List IPluginDescription)
    (r : WorkspaceResource) (fe : String → Bool) (ae : String → Option String) :
    handleWorkspaceContainsEagerPlugins descs (some ⟨some r⟩) fe ae
      = (desiredFiles descs).map
          (fun g => LifeEvent.fileCheck (pathJoin r.fsPath g) g)
        ++ ((desiredFiles descs).map
              (fun g => fileExistsWithResult fe (pathJoin r.fsPath g) g)).foldl
            (wsActivationOnResult ae) [] := rfl

theorem logged_of_request_handleWorkspaceContains (descs : List IPluginDescription)
    (ws : Option IWorkspace) (fe : String → Bool) (ae : String → Option String)
    (ev err : String)
    (hreq : LifeEvent.activationRequest ev
        ∈ handleWorkspaceContainsEagerPlugins descs ws fe ae)
    (herr : ae ev = some err) :
    LifeEvent.activationErrorLogged ev err
      ∈ handleWorkspaceContainsEagerPlugins descs ws fe ae := by
  rcases ws with _ | ⟨_ | r⟩
  · cases hreq
  · cases hreq
  · rw [handleWorkspaceContains_shape] at hreq ⊢
    rcases List.mem_append.mp hreq with h1 | h1
    · rcases List.mem_map.mp h1 with ⟨g, hg, hEq⟩
      cases hEq
    · refine List.mem_append.mpr (Or.inr ?_)
      exact logged_of_request_wsFoldl ae _ [] (fun ev err h _ => nomatch h) ev err h1 herr

theorem logged_of_request_handleEagerPlugins (descs : List IPluginDescription)
    (ws : Option IWorkspace) (fe : String → Bool) (ae : String → Option String)
    (ev err : String)
    (hreq : LifeEvent.activationRequest ev ∈ handleEagerPlugins descs ws fe ae)
    (herr : ae ev = some err) :
    LifeEvent.activationErrorLogged ev err ∈ handleEagerPlugins descs ws fe ae := by
  rcases List.mem_append.mp hreq with h1 | h1
  · exact List.mem_append.mpr
      (Or.inl (logged_of_request_attempt ae "*" ev err h1 herr))
  · exact List.mem_append.mpr
      (Or.inr (logged_of_request_handleWorkspaceContains descs ws fe ae ev err h1 herr))

theorem wildcard_mem_handleEagerPlugins (descs : List IPluginDescription)
    (ws : Option IWorkspace) (fe : String → Bool) (ae : String → Option String) :
    LifeEvent.activationRequest "*" ∈ handleEagerPlugins descs ws fe ae :=
  List.mem_append.mpr (Or.inl (request_mem_activationAttempt ae "*"))

theorem readPlugins_shape
    (sc : Except (List IMessage × String) (List IPluginDescription × List IMessage))
    (ws : Option IWorkspace) (fe : String → Bool) (ae : String → Option String)
    (env : IEnvironment) (req : Except String ITestRunnerModule) :
    readPlugins sc ws fe ae env req
      = LifeEvent.registered (scanResultOf sc).1
          :: LifeEvent.registrationDone (scanResultOf sc).2
          :: (handleEagerPlugins (scanResultOf sc).1 ws fe ae
              ++ [LifeEvent.testOutcome (handlePluginTests env req)]) := rfl

theorem wildcard_mem_readPlugins
    (sc : Except (List IMessage × String) (List IPluginDescription × List IMessage))
    (ws : Option IWorkspace) (fe : String → Bool) (ae : String → Option String)
    (env : IEnvironment) (req : Except String ITestRunnerModule) :
    LifeEvent.activationRequest "*" ∈ readPlugins sc ws fe ae env req := by
  rw [readPlugins_shape]
  exact List.mem_cons_of_mem _ (List.mem_cons_of_mem _
    (List.mem_append.mpr (Or.inl (wildcard_mem_handleEagerPlugins _ ws fe ae))))

theorem testOutcome_mem_readPlugins
    (sc : Except (List IMessage × String) (List IPluginDescription × List IMessage))
    (ws : Option IWorkspace) (fe : String → Bool) (ae : String → Option String)
    (env : IEnvironment) (req : Except String ITestRunnerModule) :
    LifeEvent.testOutcome (handlePluginTests env req) ∈ readPlugins sc ws fe ae env req := by
  rw [readPlugins_shape]
  exact List.mem_cons_of_mem _ (List.mem_cons_of_mem _
    (List.mem_append.mpr (Or.inr (List.mem_cons_self _ _))))

theorem requestsOf_readPlugins
    (sc : Except (List IMessage × String) (List IPluginDescription × List IMessage))
    (ws : Option IWorkspace) (fe : String → Bool) (ae : String → Option String)
    (env : IEnvironment) (req : Except String ITestRunnerModule) :
    requestsOf (readPlugins sc ws fe ae env req)
      = requestsOf (handleEagerPlugins (scanResultOf sc).1 ws fe ae) := by
  rw [readPlugins_shape]
  simp [requestsOf, List.filterMap_cons, requestEvent, List.filterMap_append]

theorem requestsOf_handleEagerPlugins (descs : List IPluginDescription)
    (ws : Option IWorkspace) (fe : String → Bool) (ae : String → Option String) :
    requestsOf (handleEagerPlugins descs ws fe ae)
      = "*" :: requestsOf (handleWorkspaceContainsEagerPlugins descs ws fe ae) := by
  rw [show handleEagerPlugins descs ws fe ae
        = activationAttempt ae "*"
          ++ handleWorkspaceContainsEagerPlugins descs ws fe ae from rfl,
    requestsOf_append, requestsOf_activationAttempt]
  rfl

theorem requestsOf_handleWorkspaceContains_indep (descs : List IPluginDescription)
    (ws : Option IWorkspace) (fe : String → Bool) (ae ae' : String → Option String) :
    requestsOf (handleWorkspaceContainsEagerPlugins descs ws fe ae)
      = requestsOf (handleWorkspaceContainsEagerPlugins descs ws fe ae') := by
  rcases ws with _ | ⟨_ | r⟩
  · rfl
  · rfl
  · rw [requestsOf_wsStage, requestsOf_wsStage]

theorem handleEagerPlugins_events (descs : List IPluginDescription)
    (ws : Option IWorkspace) (fe : String → Bool) (ae : String → Option String) :
    ∀ e ∈ handleEagerPlugins descs ws fe ae, isEagerEvent e = true := by
  intro e he
  rcases List.mem_append.mp he with h1 | h1
  · rcases hae : ae "*" with _ | er <;>
      simp only [activationAttempt, hae, List.mem_cons, List.mem_singleton,
        List.not_mem_nil, or_false] at h1
    · subst h1
      rfl
    · rcases h1 with rfl | rfl <;> rfl
  · rcases ws with _ | ⟨_ | r⟩
    · cases h1
    · cases h1
    · rw [handleWorkspaceContains_shape] at h1
      rcases List.mem_append.mp h1 with h2 | h2
      · rcases List.mem_map.mp h2 with ⟨g, hg, rfl⟩
        rfl
      · exact foldl_wsActivationOnResult_events ae (fun x => isEagerEvent x = true)
          (fun ev => rfl) (fun ev err => rfl) _ [] (fun e h => nomatch h) e h2

/-- C6: when the plugin scan fails as a whole, the error is recorded as
a collected error diagnostic, registration is still performed with an
empty descriptor set, registration-done is still signalled with the
collected messages, and the eager-activation and test stages still run. -/
theorem C6_scan_failure_tolerated (priorMsgs : List IMessage) (err : String)
    (ws : Option IWorkspace) (fe : String → Bool) (ae : String → Option String)
    (env : IEnvironment) (req : Except String ITestRunnerModule) :
    readPlugins (Except.error (priorMsgs, err)) ws fe ae env req
        = LifeEvent.registered []
            :: LifeEvent.registrationDone (priorMsgs ++ [⟨Sev.error, "", err⟩])
            :: (handleEagerPlugins [] ws fe ae
                ++ [LifeEvent.testOutcome (handlePluginTests env req)])
    ∧ LifeEvent.registrationDone (priorMsgs ++ [⟨Sev.error, "", err⟩])
        ∈ readPlugins (Except.error (priorMsgs, err)) ws fe ae env req
    ∧ LifeEvent.activationRequest "*"
        ∈ readPlugins (Except.error (priorMsgs, err)) ws fe ae env req
    ∧ LifeEvent.testOutcome (handlePluginTests env req)
        ∈ readPlugins (Except.error (priorMsgs, err)) ws fe ae env req := by
  refine ⟨rfl, ?_, wildcard_mem_readPlugins _ _ _ _ _ _,
    testOutcome_mem_readPlugins _ _ _ _ _ _⟩
  rw [readPlugins_shape]
  exact List.mem_cons_of_mem _ (List.mem_cons_self _ _)

/-- C7: activation-request failures during eager activation are logged
and isolated: the requests issued do not depend on which activations
fail, every failing issued request has its error logged in the same
trace, and the test stage still runs. -/
theorem C7_activation_failures_isolated
    (sc : Except (List IMessage × String) (List IPluginDescription × List IMessage))
    (ws : Option IWorkspace) (fe : String → Bool) (env : IEnvironment)
    (req : Except String ITestRunnerModule) (ae : String → Option String) :
    requestsOf (readPlugins sc ws fe ae env req)
        = requestsOf (readPlugins sc ws fe (fun _ => none) env req)
    ∧ (∀ ev err, LifeEvent.activationRequest ev ∈ readPlugins sc ws fe ae env req →
        ae ev = some err →
        LifeEvent.activationErrorLogged ev err ∈ readPlugins sc ws fe ae env req)
    ∧ LifeEvent.testOutcome (handlePluginTests env req)
        ∈ readPlugins sc ws fe ae env req := by
  refine ⟨?_, ?_, testOutcome_mem_readPlugins _ _ _ _ _ _⟩
  · rw [requestsOf_readPlugins, requestsOf_readPlugins,
      requestsOf_handleEagerPlugins, requestsOf_handleEagerPlugins,
      requestsOf_handleWorkspaceContains_indep _ _ _ ae (fun _ => none)]
  · intro ev err hreq herr
    rw [readPlugins_shape] at hreq ⊢
    simp only [List.mem_cons] at hreq
    rcases hreq with h | h | h
    · exact absurd h (by simp)
    · exact absurd h (by simp)
    · rcases List.mem_append.mp h with h1 | h1
      · exact List.mem_cons_of_mem _ (List.mem_cons_of_mem _ (List.mem_append.mpr
          (Or.inl (logged_of_request_handleEagerPlugins _ _ _ _ _ _ h1 herr))))
      · rcases List.mem_cons.mp h1 with h2 | h2
        · exact absurd h2 (by simp)
        · cases h2

/-- C8: the lifecycle stages run sequentially: the trace is registration
of the discovered set, then the registration-done signal with the
collected messages, then the eager-activation events (all activation
requests, their logged failures, and the file checks — including the
wildcard request), and only then the single test-stage outcome. -/
theorem C8_sequential_lifecycle
    (sc : Except (List IMessage × String) (List IPluginDescription × List IMessage))
    (ws : Option IWorkspace) (fe : String → Bool) (ae : String → Option String)
    (env : IEnvironment) (req : Except String ITestRunnerModule) :
    ∃ eager : List LifeEvent,
      readPlugins sc ws fe ae env req
        = LifeEvent.registered (scanResultOf sc).1
            :: LifeEvent.registrationDone (scanResultOf sc).2
            :: (eager ++ [LifeEvent.testOutcome (handlePluginTests env req)])
      ∧ (∀ e ∈ eager, isEagerEvent e = true)
      ∧ LifeEvent.activationRequest "*" ∈ eager :=
  ⟨handleEagerPlugins (scanResultOf sc).1 ws fe ae, rfl,
    handleEagerPlugins_events _ ws fe ae,
    wildcard_mem_handleEagerPlugins _ ws fe ae⟩

/-- C10: with no workspace, or a workspace without a root resource, the
`workspaceContains` stage is a no-op — no file checks and no
`workspaceContains` activation requests — while the wildcard request is
still issued and the test stage still runs. -/
theorem C10_no_workspace_root
    (sc : Except (List IMessage × String) (List IPluginDescription × List IMessage))
    (descs : List IPluginDescription) (fe : String → Bool)
    (ae : String → Option String) (ws : Option IWorkspace)
    (h : ws = none ∨ ws = some ⟨none⟩)
    (env : IEnvironment) (req : Except String ITestRunnerModule) :
    handleWorkspaceContainsEagerPlugins descs ws fe ae = []
    ∧ readPlugins sc ws fe ae env req
        = LifeEvent.registered (scanResultOf sc).1
            :: LifeEvent.registrationDone (scanResultOf sc).2
            :: (activationAttempt ae "*"
                ++ [LifeEvent.testOutcome (handlePluginTests env req)])
    ∧ LifeEvent.activationRequest "*" ∈ readPlugins sc ws fe ae env req
    ∧ (∀ p fn, LifeEvent.fileCheck p fn ∉ readPlugins sc ws fe ae env req)
    ∧ (∀ ev, LifeEvent.activationRequest ev ∈ readPlugins sc ws fe ae env req →
        ev = "*") := by
  have hws : ∀ ds : List IPluginDescription,
      handleWorkspaceContainsEagerPlugins ds ws fe ae = [] := by
    intro ds
    rcases h with rfl | rfl <;> rfl
  have htrace : readPlugins sc ws fe ae env req
      = LifeEvent.registered (scanResultOf sc).1
          :: LifeEvent.registrationDone (scanResultOf sc).2
          :: (activationAttempt ae "*"
              ++ [LifeEvent.testOutcome (handlePluginTests env req)]) := by
    rw [readPlugins_shape,
      show handleEagerPlugins (scanResultOf sc).1 ws fe ae
          = activationAttempt ae "*"
            ++ handleWorkspaceContainsEagerPlugins (scanResultOf sc).1 ws fe ae from rfl,
      hws, List.append_nil]
  refine ⟨hws descs, htrace, wildcard_mem_readPlugins _ _ _ _ _ _, ?_, ?_⟩
  · intro p fn hmem
    rw [htrace] at hmem
    simp only [List.mem_cons, List.mem_append, List.mem_singleton] at hmem
    rcases hmem with h1 | h1 | h1 | h1
    · exact absurd h1 (by simp)
    · exact absurd h1 (by simp)
    · rcases hae : ae "*" with _ | e <;> simp [activationAttempt, hae] at h1
    · exact absurd h1 (by simp)
  · intro ev hmem
    rw [htrace] at hmem
    simp only [List.mem_cons, List.mem_append, List.mem_singleton] at hmem
    rcases hmem with h1 | h1 | h1 | h1
    · exact absurd h1 (by simp)
    · exact absurd h1 (by simp)
    · exact request_eq_of_mem_attempt ae "*" ev h1
    · exact absurd h1 (by simp)

/-- C10 witness: with a successful empty scan, no workspace, an
always-failing file system and no test configuration, the
`workspaceContains` stage is empty, only the wildcard request appears,
no file check is performed, and the test outcome is still produced. -/
theorem C10_no_workspace_root_witness :
    handleWorkspaceContainsEagerPlugins [] none (fun _ => false) (fun _ => none) = []
    ∧ readPlugins (Except.ok ([], [])) none (fun _ => false) (fun _ => none)
          ⟨none, none⟩ (Except.error "")
        = LifeEvent.registered (scanResultOf (Except.ok ([], []))).1
            :: LifeEvent.registrationDone (scanResultOf (Except.ok ([], []))).2
            :: (activationAttempt (fun _ => none) "*"
                ++ [LifeEvent.testOutcome
                      (handlePluginTests ⟨none, none⟩ (Except.error ""))])
    ∧ LifeEvent.activationRequest "*"
        ∈ readPlugins (Except.ok ([], [])) none (fun _ => false) (fun _ => none)
            ⟨none, none⟩ (Except.error "")
    ∧ (∀ p fn, LifeEvent.fileCheck p fn
        ∉ readPlugins (Except.ok ([], [])) none (fun _ => false) (fun _ => none)
            ⟨none, none⟩ (Except.error ""))
    ∧ (∀ ev, LifeEvent.activationRequest ev
        ∈ readPlugins (Except.ok ([], [])) none (fun _ => false) (fun _ => none)
            ⟨none, none⟩ (Except.error "") →
        ev = "*") :=
  C10_no_workspace_root (Except.ok ([], [])) [] (fun _ => false) (fun _ => none)
    none (Or.inl rfl) ⟨none, none⟩ (Except.error "")
